import Mathlib

/-!
A verification development for the consensus/p2p core of the repository:
the broadcast plane and peer registry (`src/p2p/server.rs`), the PBFT
request handler (`src/consensus/pbft/core/request.rs`), and the DPoS slot
schedule (`dpos/src/slot.rs`).

Peer ids, session addresses and message hashes are abstracted to natural
numbers; the `HashMap<PeerId, ConnectInfo>` peer table is modelled as an
association list looked up by key; the LRU message cache is modelled by
the set of hashes it currently holds (its time-based expiry is not needed
by any statement below, which all concern a single handler invocation).
-/

/-! ## P2P data model (src/p2p/protocol.rs as used by src/p2p/server.rs) -/

abbrev PeerId := ℕ

abbrev SessionAddr := ℕ

abbrev MsgHash := ℕ

/-- Direction of a session (protocol.rs `BoundType`). -/
inductive BoundType
  | inBound
  | outBound
deriving DecidableEq

/-- Per-peer record kept by the server (server.rs `ConnectInfo`). -/
structure ConnectInfo where
  connect_time : ℤ
  bound_type : BoundType
  pid : SessionAddr
deriving DecidableEq

/-- Wire codes (protocol.rs `P2PMsgCode`). -/
inductive P2PMsgCode
  | handshake
  | consensus
  | blockCode
  | sync
  | ping
deriving DecidableEq

/-- Wire envelope header (protocol.rs `Header`): code, version, create_time
in milliseconds, and an optional target peer id (abstracting the byte
encoding of the peer id). -/
structure RawHeader where
  code : P2PMsgCode
  version : ℕ
  create_time : ℕ
  peer_id : Option PeerId
deriving DecidableEq

/-- A framed message (protocol.rs `RawMessage`). -/
structure RawMessage where
  header : RawHeader
  payload : List ℕ
deriving DecidableEq

/-- Handshake payload (protocol.rs `Handshake`): the remote peer id and its
genesis hash. -/
structure Handshake where
  peer_id : PeerId
  genesis : MsgHash
deriving DecidableEq

/-- Errors surfaced by the p2p server (error.rs `P2PError`, the variants
used in server.rs). -/
inductive P2PError
  | DumpConnected
  | HandShakeFailed
  | DifferentGenesis
  | InvalidMessage
deriving DecidableEq

/-- State of the `TcpServer` actor (server.rs): local node id, peer table,
genesis hash, and the hashes currently held by the LRU message cache. -/
structure TcpServer where
  node_id : PeerId
  peers : List (PeerId × ConnectInfo)
  genesis : MsgHash
  cache : List MsgHash
deriving DecidableEq

/-- Key lookup in the peer table (models `HashMap::get` / `contains_key`). -/
def lookupPeer (p : PeerId) : List (PeerId × ConnectInfo) → Option ConnectInfo
  | [] => none
  | kv :: rest => if kv.1 = p then some kv.2 else lookupPeer p rest

/-- Pointwise update of the entry at key `p` (models mutation through
`HashMap::get_mut`). -/
def updatePeer (p : PeerId) (i : ConnectInfo) (l : List (PeerId × ConnectInfo)) :
    List (PeerId × ConnectInfo) :=
  l.map fun kv => if kv.1 = p then (kv.1, i) else kv

/-- The reference handshake-authorisation predicate (server.rs
`author_handshake`): accept iff the remote genesis equals the local one. -/
def author_handshake (genesis : MsgHash) : Handshake → Bool :=
  fun hs => hs.genesis == genesis

/-- server.rs `TcpServer::broadcast`: if the header carries a target peer
id, hand the message only to that peer's session (and to nobody if the
peer is not in the table); otherwise hand it to every peer's session.
The returned list is the sequence of `do_send` calls (receiving peer and
message). `broadcast` takes `&self`: it modifies neither the peer table
nor the cache. -/
def broadcast (s : TcpServer) (msg : RawMessage) : List (PeerId × RawMessage) :=
  match msg.header.peer_id with
  | some peer =>
    match lookupPeer peer s.peers with
    | some _ => [(peer, msg)]
    | none => []
  | none => s.peers.map fun kv => (kv.1, msg)

/-- server.rs `Handler<BroadcastEvent>`, `Consensus` arm: wrap the consensus
payload in a fresh header (code `Consensus`, version 10, create_time `now_ms`,
no target peer) and call `broadcast`. The dedup cache is neither consulted
nor modified on this path. -/
def publishConsensus (s : TcpServer) (payload : List ℕ) (now_ms : ℕ) :
    List (PeerId × RawMessage) :=
  broadcast s
    { header :=
        { code := .consensus, version := 10, create_time := now_ms, peer_id := none },
      payload := payload }

/-- server.rs `Handler<ServerEvent>`, `Message` arm: skip the message if its
create_time lies in the future or if its hash is already in the cache;
otherwise invoke the configured message handler. Returns whether the handler
was invoked, together with the server state afterwards. The source never
inserts the hash into the cache (`cache.get` is its only use), which the
returned state makes explicit. -/
def on_message (hash : RawMessage → MsgHash) (s : TcpServer) (raw : RawMessage)
    (now_ms : ℕ) : Bool × TcpServer :=
  if now_ms < raw.header.create_time then (false, s)
  else if hash raw ∈ s.cache then (false, s)
  else (true, s)

/-- server.rs `TcpServer::handle_handshake`: reject with `DumpConnected` if
the remote peer id is already in the table, with `HandShakeFailed` if it
equals the local node id, with `DifferentGenesis` if the authorisation
predicate `af` rejects the handshake; otherwise insert the peer — the
source matches on `bound_type` with two empty arms and then always stores
`BoundType::InBound` — and return the peer id. -/
def handle_handshake (af : Handshake → Bool) (s : TcpServer) ( bound_type : BoundType)
    (pid : SessionAddr) (hs : Handshake) (now : ℤ) :
    Except P2PError (TcpServer × PeerId) :=
  match lookupPeer hs.peer_id s.peers with
  | some _ => .error .DumpConnected
  | none =>
    if s.node_id = hs.peer_id then .error .HandShakeFailed
    else if ¬ af hs then .error .DifferentGenesis
    else
      .ok
        ({ s with
            peers :=
              (hs.peer_id,
                { connect_time := now, bound_type := .inBound, pid := pid }) ::
                s.peers },
          hs.peer_id)

/-- server.rs `Handler<ServerEvent>`, `Ping` arm: `peers.get_mut(peer_id).unwrap()`
followed by setting `connect_time` to now. `none` models the `unwrap` panic on
an unregistered peer. -/
def handle_ping (s : TcpServer) (p : PeerId) (now : ℤ) : Option (TcpServer × PeerId) :=
  match lookupPeer p s.peers with
  | none => none
  | some i =>
    some
      ({ s with peers := updatePeer p { i with connect_time := now } s.peers }, p)

/-! ## Helper lemmas on the peer table -/

lemma lookupPeer_updatePeer (p : PeerId) (i : ConnectInfo)
    (l : List (PeerId × ConnectInfo)) (j : ConnectInfo)
    (h : lookupPeer p l = some j) :
    lookupPeer p (updatePeer p i l) = some i := by
  induction l with
  | nil => simp [lookupPeer] at h
  | cons kv rest ih =>
    by_cases hk : kv.1 = p
    · simp [lookupPeer, updatePeer, hk]
    · have hcons : updatePeer p i (kv :: rest) = kv :: updatePeer p i rest := by
        simp [updatePeer, hk]
      rw [hcons]
      simp only [lookupPeer, if_neg hk] at h ⊢
      exact ih h

lemma map_fst_pair (l : List (PeerId × ConnectInfo)) (msg : RawMessage) :
    (l.map fun kv => (kv.1, msg)).map Prod.fst = l.map Prod.fst := by
  induction l with
  | nil => rfl
  | cons kv rest ih => simp [ih]

/-! ## C1: publishing the same message twice -/

/-- A server with one connected peer and an empty cache, used to exhibit the
behaviour of two consecutive publishes. -/
def c1Server : TcpServer :=
  { node_id := 0,
    peers := [(1, { connect_time := 0, bound_type := .inBound, pid := 7 })],
    genesis := 0,
    cache := [] }

/-- C1, counterexample: the claim says publishing the same consensus message
twice results in exactly one outbound send per connected peer. On a server
with one connected peer (peer 1) and an empty dedup cache, two deliveries of
`BroadcastEvent::Consensus` with the same payload produce two sends to that
peer, not one: the broadcast path never consults or fills the dedup cache. -/
theorem C1_counterexample :
    (lookupPeer 1 c1Server.peers).isSome = true ∧
    ((publishConsensus c1Server [2] 5 ++ publishConsensus c1Server [2] 5).map
        Prod.fst).count 1 = 2 ∧
    ((publishConsensus c1Server [2] 5 ++ publishConsensus c1Server [2] 5).map
        Prod.fst).count 1 ≠ 1 := by
  decide

/-- C1, amended: publishing the same consensus message twice hands it to
every connected peer twice — once per publish. The publish path computes no
hash, never reads or writes the dedup cache (the sends are the same for any
cache contents), and drops nothing. -/
theorem C1_amended (s : TcpServer) (payload : List ℕ) (t1 t2 : ℕ) :
    (publishConsensus s payload t1 ++ publishConsensus s payload t2).map Prod.fst
        = s.peers.map Prod.fst ++ s.peers.map Prod.fst ∧
    ∀ c, publishConsensus { s with cache := c } payload t1
        = publishConsensus s payload t1 := by
  constructor
  · simp only [publishConsensus, broadcast, List.map_append]
    rw [map_fst_pair, map_fst_pair]
  · intro c
    rfl

/-! ## C3: the receive path never fills the dedup cache -/

/-- A server with an empty message cache. -/
def c3Server : TcpServer := { node_id := 0, peers := [], genesis := 0, cache := [] }

/-- A raw message whose create_time (0) is in the past. -/
def c3Raw : RawMessage :=
  { header := { code := .consensus, version := 10, create_time := 0, peer_id := none },
    payload := [] }

/-- C3: the `Message` arm checks `cache.get(&hash)` but never inserts the
hash, so the cache is unchanged by a receipt and a second receipt of the very
same message invokes the configured handler again instead of being
suppressed. Evaluated at the failing input: an empty cache and the same
message (create_time 0 ≤ now 5) delivered twice. -/
theorem C3_handler_invoked_twice :
    on_message (fun _ => 0) c3Server c3Raw 5 = (true, c3Server) ∧
    on_message (fun _ => 0) (on_message (fun _ => 0) c3Server c3Raw 5).2 c3Raw 5
        = (true, c3Server) := by
  decide

/-! ## C4: handshake acceptance and rejection -/

/-- C4: `handle_handshake` rejects with the duplicate-connection error
(`DumpConnected`) when the remote peer id is already in the peer table;
otherwise rejects with `HandShakeFailed` when the remote peer id equals the
local node id; otherwise rejects with `DifferentGenesis` when the
authorisation predicate rejects the handshake; and otherwise inserts the
peer into the table and returns its peer id. -/
theorem C4_handshake (af : Handshake → Bool) (s : TcpServer) (bt : BoundType)
    (pid : SessionAddr) (hs : Handshake) (now : ℤ) :
    ((∃ i, lookupPeer hs.peer_id s.peers = some i) →
        handle_handshake af s bt pid hs now = .error .DumpConnected) ∧
    (lookupPeer hs.peer_id s.peers = none → s.node_id = hs.peer_id →
        handle_handshake af s bt pid hs now = .error .HandShakeFailed) ∧
    (lookupPeer hs.peer_id s.peers = none → s.node_id ≠ hs.peer_id →
        af hs = false →
        handle_handshake af s bt pid hs now = .error .DifferentGenesis) ∧
    (lookupPeer hs.peer_id s.peers = none → s.node_id ≠ hs.peer_id →
        af hs = true →
        ∃ s2, handle_handshake af s bt pid hs now = .ok (s2, hs.peer_id) ∧
          lookupPeer hs.peer_id s2.peers
            = some { connect_time := now, bound_type := .inBound, pid := pid }) := by
  refine ⟨?_, ?_, ?_, ?_⟩
  · rintro ⟨i, hi⟩
    simp [handle_handshake, hi]
  · intro hnone hself
    simp [handle_handshake, hnone, hself]
  · intro hnone hself haf
    simp [handle_handshake, hnone, hself, haf]
  · intro hnone hself haf
    refine
      ⟨{ s with
          peers :=
            (hs.peer_id,
              { connect_time := now, bound_type := .inBound, pid := pid }) ::
              s.peers }, ?_, ?_⟩
    · simp [handle_handshake, hnone, hself, haf]
    · simp [lookupPeer]

/-- A server and handshake exercising every branch of `C4_handshake`. -/
def c4Server : TcpServer :=
  { node_id := 0,
    peers := [(1, { connect_time := 0, bound_type := .inBound, pid := 7 })],
    genesis := 5,
    cache := [] }

/-- C4, witness: on a concrete server (local id 0, peer 1 connected, genesis
5) a handshake from the connected peer 1 yields `DumpConnected`; a handshake
from the local id yields `HandShakeFailed`; a handshake with the wrong
genesis yields `DifferentGenesis`; and a fresh authorised handshake from
peer 2 is inserted (as `inBound`) and returns peer 2. -/
theorem C4_witness :
    handle_handshake (author_handshake 5) c4Server .inBound 9
        { peer_id := 1, genesis := 5 } 3 = .error .DumpConnected ∧
    handle_handshake (author_handshake 5) c4Server .inBound 9
        { peer_id := 0, genesis := 5 } 3 = .error .HandShakeFailed ∧
    handle_handshake (author_handshake 5) c4Server .inBound 9
        { peer_id := 2, genesis := 6 } 3 = .error .DifferentGenesis ∧
    ∃ s2,
      handle_handshake (author_handshake 5) c4Server .inBound 9
          { peer_id := 2, genesis := 5 } 3 = .ok (s2, 2) ∧
      lookupPeer 2 s2.peers
        = some { connect_time := 3, bound_type := .inBound, pid := 9 } :=
  ⟨(C4_handshake (author_handshake 5) c4Server .inBound 9
      { peer_id := 1, genesis := 5 } 3).1
      ⟨{ connect_time := 0, bound_type := .inBound, pid := 7 }, by decide⟩,
   (C4_handshake (author_handshake 5) c4Server .inBound 9
      { peer_id := 0, genesis := 5 } 3).2.1 (by decide) (by decide),
   (C4_handshake (author_handshake 5) c4Server .inBound 9
      { peer_id := 2, genesis := 6 } 3).2.2.1 (by decide) (by decide) (by decide),
   (C4_handshake (author_handshake 5) c4Server .inBound 9
      { peer_id := 2, genesis := 5 } 3).2.2.2 (by decide) (by decide) (by decide)⟩

/-! ## C7: targeted versus flood broadcast -/

/-- C7: a message whose header carries an explicit peer id is handed only to
that peer (and to nobody when the peer is not in the table); a message with
no target peer id is handed to every peer in the table. -/
theorem C7_broadcast_targeting (s : TcpServer) (msg : RawMessage) :
    (∀ p, msg.header.peer_id = some p →
        (∀ i, lookupPeer p s.peers = some i → broadcast s msg = [(p, msg)]) ∧
        (lookupPeer p s.peers = none → broadcast s msg = [])) ∧
    (msg.header.peer_id = none →
        broadcast s msg = s.peers.map fun kv => (kv.1, msg)) := by
  refine ⟨?_, ?_⟩
  · intro p hp
    refine ⟨?_, ?_⟩
    · intro i hi
      simp [broadcast, hp, hi]
    · intro hi
      simp [broadcast, hp, hi]
  · intro hp
    simp [broadcast, hp]

/-- A server with two peers for the broadcast witness. -/
def c7Server : TcpServer :=
  { node_id := 0,
    peers :=
      [(3, { connect_time := 0, bound_type := .inBound, pid := 9 }),
       (4, { connect_time := 0, bound_type := .inBound, pid := 10 })],
    genesis := 0,
    cache := [] }

/-- A sync request targeted at peer 3. -/
def c7Msg : RawMessage :=
  { header := { code := .sync, version := 10, create_time := 0, peer_id := some 3 },
    payload := [] }

/-- A flood message with no target peer. -/
def c7Flood : RawMessage :=
  { header := { code := .consensus, version := 10, create_time := 0, peer_id := none },
    payload := [] }

/-- C7, witness: on a server with peers 3 and 4, the message targeted at
peer 3 is sent only to peer 3, and the untargeted message is sent to both. -/
theorem C7_witness :
    broadcast c7Server c7Msg = [(3, c7Msg)] ∧
    broadcast c7Server c7Flood = [(3, c7Flood), (4, c7Flood)] :=
  ⟨((C7_broadcast_targeting c7Server c7Msg).1 3 (by decide)).1
      { connect_time := 0, bound_type := .inBound, pid := 9 } (by decide),
   by
    have h := (C7_broadcast_targeting c7Server c7Flood).2 (by decide)
    simpa [c7Server] using h⟩

/-! ## C9: the stored bound type is always InBound -/

/-- C9: whenever a handshake succeeds, the peer-table entry created for the
new peer records `bound_type = InBound`, and the whole handler is
independent of the `bound_type` argument — outbound sessions are registered
as inbound ones. -/
theorem C9_always_inbound (af : Handshake → Bool) (s : TcpServer) (bt : BoundType)
    (pid : SessionAddr) (hs : Handshake) (now : ℤ) (s2 : TcpServer) (p : PeerId)
    (h : handle_handshake af s bt pid hs now = .ok (s2, p)) :
    (∃ i, lookupPeer p s2.peers = some i ∧ i.bound_type = .inBound) ∧
    ∀ bt2, handle_handshake af s bt2 pid hs now
        = handle_handshake af s bt pid hs now := by
  constructor
  · unfold handle_handshake at h
    cases hlk : lookupPeer hs.peer_id s.peers with
    | some i => rw [hlk] at h; exact absurd h (by simp)
    | none =>
      rw [hlk] at h
      by_cases hself : s.node_id = hs.peer_id
      · rw [if_pos hself] at h; exact absurd h (by simp)
      · rw [if_neg hself] at h
        by_cases haf : af hs = true
        · rw [if_neg (by simp [haf] : ¬ ¬ (af hs = true))] at h
          injection h with h'
          injection h' with ha hb
          subst ha
          subst hb
          exact
            ⟨{ connect_time := now, bound_type := .inBound, pid := pid },
              by simp [lookupPeer], rfl⟩
        · rw [if_pos (by simp [haf] : ¬ (af hs = true))] at h
          exact absurd h (by simp)
  · intro bt2
    rfl

/-- A fresh server for the C9 witness. -/
def c9Server : TcpServer := { node_id := 0, peers := [], genesis := 5, cache := [] }

/-- The server after peer 2 completes a handshake at time 0 over session 4. -/
def c9After : TcpServer :=
  { node_id := 0,
    peers := [(2, { connect_time := 0, bound_type := .inBound, pid := 4 })],
    genesis := 5,
    cache := [] }

/-- C9, witness: a successful handshake on an OutBound session is stored
with `bound_type = InBound`, and the handler result does not depend on the
bound-type argument. -/
theorem C9_witness :
    (∃ i, lookupPeer 2 c9After.peers = some i ∧ i.bound_type = .inBound) ∧
    ∀ bt2, handle_handshake (fun _ => true) c9Server bt2 4
        { peer_id := 2, genesis := 5 } 0
      = handle_handshake (fun _ => true) c9Server .outBound 4
        { peer_id := 2, genesis := 5 } 0 :=
  C9_always_inbound (fun _ => true) c9Server .outBound 4
    { peer_id := 2, genesis := 5 } 0 c9After 2 (by rfl)

/-! ## C10: the Ping handler is total only for registered peers -/

/-- C10: for a peer present in the table, `ServerEvent::Ping` updates that
peer's `connect_time` (last seen) to now and returns `Ok(peer_id)`; for a
peer that is not in the table, the handler's `unwrap` panics (modelled as
`none`) instead of returning an error. -/
theorem C10_ping (s : TcpServer) (p : PeerId) (now : ℤ) :
    (∀ i, lookupPeer p s.peers = some i →
        ∃ s2, handle_ping s p now = some (s2, p) ∧
          lookupPeer p s2.peers = some { i with connect_time := now }) ∧
    (lookupPeer p s.peers = none → handle_ping s p now = none) := by
  constructor
  · intro i hi
    refine
      ⟨{ s with peers := updatePeer p { i with connect_time := now } s.peers },
        ?_, ?_⟩
    · simp [handle_ping, hi]
    · exact lookupPeer_updatePeer p _ s.peers i hi
  · intro hnone
    simp [handle_ping, hnone]

/-- A server with one peer last seen at time 100, for the C10 witness. -/
def c10Server : TcpServer :=
  { node_id := 0,
    peers := [(4, { connect_time := 100, bound_type := .inBound, pid := 8 })],
    genesis := 0,
    cache := [] }

/-- C10, witness: pinging the registered peer 4 at time 777 stores 777 as
its last-seen time and returns it; pinging the unregistered peer 5 panics. -/
theorem C10_witness :
    (∃ s2, handle_ping c10Server 4 777 = some (s2, 4) ∧
      lookupPeer 4 s2.peers
        = some { connect_time := 777, bound_type := .inBound, pid := 8 }) ∧
    handle_ping c10Server 5 777 = none :=
  ⟨(C10_ping c10Server 4 777).1
      { connect_time := 100, bound_type := .inBound, pid := 8 } (by decide),
   (C10_ping c10Server 5 777).2 (by decide)⟩

/-! ## PBFT request handling (src/consensus/pbft/core/request.rs) -/

/-- Phases of the PBFT state machine (`protocol::State`; the phase list
follows the spec, only `AcceptRequest` is inspected by the request path). -/
inductive PbftState
  | acceptRequest
  | preprepared
  | prepared
  | committed
  | finalized
deriving DecidableEq

/-- The consensus errors produced by the request path
(consensus/error.rs variants used in request.rs). -/
inductive ConsensusError
  | WaitNewRound
  | OldMessage
  | FutureMessage
deriving DecidableEq

/-- A block, reduced to the single field the request path reads. -/
structure Block where
  height : ℤ
deriving DecidableEq

/-- A proposal wraps a candidate block. -/
structure Proposal where
  block : Block
deriving DecidableEq

/-- A request wraps a proposal (consensus/types.rs `Request`). -/
structure Request where
  proposal : Proposal
deriving DecidableEq

/-- The fields of `current_state` read and written by the request path. -/
structure CurrentState where
  height : ℤ
  pending_request : Option Request
deriving DecidableEq

/-- The consensus core, reduced to the state inspected by the request path. -/
structure Core where
  current_state : CurrentState
  state : PbftState
deriving DecidableEq

/-- request.rs `Core::check_request_message`: height 0 means the round has
not been entered (`WaitNewRound`); a request below the current height is
`OldMessage`; above it is `FutureMessage`; at it is accepted. -/
def check_request_message (c : Core) (r : Request) : Except ConsensusError Unit :=
  if c.current_state.height = 0 then .error .WaitNewRound
  else if c.current_state.height > r.proposal.block.height then .error .OldMessage
  else if c.current_state.height < r.proposal.block.height then .error .FutureMessage
  else .ok ()

/-- request.rs `Core::accept`: buffer the request's proposal as the pending
request of the current height. -/
def accept (c : Core) (r : Request) : Core :=
  { c with
      current_state :=
        { c.current_state with pending_request := some { proposal := r.proposal } } }

/-- request.rs `Core::handle` (trait `HandlerRequest`): check the request,
assert the `AcceptRequest` phase (`none` models the `assert_eq!` panic),
call `accept`, then `send_preprepare`. `send_preprepare` lives in
preprepare.rs and is passed as a parameter returning the updated core and
the messages it emits. -/
def handleRequest {α : Type} (send_preprepare : Core → Request → Core × List α)
    (c : Core) (r : Request) :
    Option (Except ConsensusError Unit × Core × List α) :=
  match check_request_message c r with
  | .error e => some (.error e, c, [])
  | .ok _ =>
    if c.state = PbftState.acceptRequest then
      some (.ok (), (send_preprepare (accept c r) r).1, (send_preprepare (accept c r) r).2)
    else none

/-! ## C2: classification of requests -/

/-- C2: `check_request_message` classifies every request exactly as: height
0 gives `WaitNewRound`; otherwise a request whose block height is below the
current height gives `OldMessage`; above it gives `FutureMessage`; and at
equal (nonzero) heights the request is accepted. -/
theorem C2_request_classification (c : Core) (r : Request) :
    (c.current_state.height = 0 →
        check_request_message c r = .error .WaitNewRound) ∧
    (c.current_state.height ≠ 0 →
        c.current_state.height > r.proposal.block.height →
        check_request_message c r = .error .OldMessage) ∧
    (c.current_state.height ≠ 0 →
        c.current_state.height < r.proposal.block.height →
        check_request_message c r = .error .FutureMessage) ∧
    (c.current_state.height ≠ 0 →
        c.current_state.height = r.proposal.block.height →
        check_request_message c r = .ok ()) := by
  unfold check_request_message
  refine ⟨?_, ?_, ?_, ?_⟩ <;> intros <;> split_ifs <;> first | rfl | omega

/-- A core at height `h`, in phase AcceptRequest, with no pending request. -/
def coreAt (h : ℤ) : Core :=
  { current_state := { height := h, pending_request := none },
    state := .acceptRequest }

/-- A request whose block has height `h`. -/
def reqAt (h : ℤ) : Request := { proposal := { block := { height := h } } }

/-- C2, witness: at current height 7, a request for height 5 is
`OldMessage` and one for height 9 is `FutureMessage`; at height 0 any
request is `WaitNewRound`; at matching height 7 the request is accepted. -/
theorem C2_witness :
    check_request_message (coreAt 7) (reqAt 5) = .error .OldMessage ∧
    check_request_message (coreAt 7) (reqAt 9) = .error .FutureMessage ∧
    check_request_message (coreAt 0) (reqAt 9) = .error .WaitNewRound ∧
    check_request_message (coreAt 7) (reqAt 7) = .ok () :=
  ⟨(C2_request_classification (coreAt 7) (reqAt 5)).2.1 (by decide) (by decide),
   (C2_request_classification (coreAt 7) (reqAt 9)).2.2.1 (by decide) (by decide),
   (C2_request_classification (coreAt 0) (reqAt 9)).1 (by decide),
   (C2_request_classification (coreAt 7) (reqAt 7)).2.2.2 (by decide) (by decide)⟩

/-! ## C8: failed checks leave the core untouched -/

/-- C8: when `check_request_message` fails, `Core::handle` returns exactly
that error, the core is returned unchanged (in particular `pending_request`
is not set and the phase is not altered), and no preprepare is sent: the
result does not involve `send_preprepare` and its message list is empty. -/
theorem C8_handle_error_atomic {α : Type} (send_preprepare : Core → Request → Core × List α)
    (c : Core) (r : Request) (e : ConsensusError)
    (h : check_request_message c r = .error e) :
    handleRequest send_preprepare c r = some (.error e, c, []) := by
  unfold handleRequest
  rw [h]

/-- C8, witness: at height 0 (where the check fails with `WaitNewRound`),
`handle` returns the error and the untouched core, and emits nothing, even
for a `send_preprepare` that would mutate the core and emit a message. -/
theorem C8_witness :
    handleRequest (fun c _ => (accept c (reqAt 9), [0]))
        (coreAt 0) (reqAt 9)
      = some (.error .WaitNewRound, coreAt 0, ([] : List ℕ)) :=
  C8_handle_error_atomic (fun c _ => (accept c (reqAt 9), [0]))
    (coreAt 0) (reqAt 9) .WaitNewRound (by rfl)

/-! ## DPoS slot schedule (dpos/src/slot.rs) -/

/-- dpos/src/slot.rs `INTERVAL`: seconds per slot. -/
def INTERVAL : ℤ := 3

/-- dpos/src/slot.rs `DELEGATES`: number of delegates. -/
def DELEGATES : ℤ := 11

/-- dpos/src/slot.rs `begin_epoch_time`: the Unix timestamp of
"Fri, 14 Jul 2017 02:40:00 +0000" (= 2017-07-14T02:40:00Z). -/
def begin_epoch_time : ℤ := 1500000000

/-- dpos/src/slot.rs `epoch_time`: seconds elapsed since the epoch origin
(`time_spec.sec - begin_epoch_time`; only the whole-second field of the
timespec is read). -/
def epoch_time (sec : ℤ) : ℤ := sec - begin_epoch_time

/-- dpos/src/slot.rs `get_time` forwards to `epoch_time`. -/
def get_time (sec : ℤ) : ℤ := epoch_time sec

/-- dpos/src/slot.rs `get_slot_number`: `epoch_time / INTERVAL` with Rust's
`i64` division, which truncates toward zero (`Int.tdiv`). -/
def get_slot_number (t : ℤ) : ℤ := Int.tdiv t INTERVAL

/-- dpos/src/slot.rs `get_slot_time`: start second of a slot. -/
def get_slot_time (slot : ℤ) : ℤ := slot * INTERVAL

/-- dpos/src/slot.rs `get_last_slot`. -/
def get_last_slot (next_slot : ℤ) : ℤ := next_slot + DELEGATES

/-! ## C6: slot numbering -/

/-- C6: for every wall-clock second at or after the epoch origin, the slot
number is the floor of the elapsed time divided by `INTERVAL` (= 3 s), and
it is monotone non-decreasing in the clock. -/
theorem C6_slot_number (sec : ℤ) (h : begin_epoch_time ≤ sec) :
    get_slot_number (epoch_time sec)
        = ⌊((sec - begin_epoch_time : ℤ) : ℚ) / ((INTERVAL : ℤ) : ℚ)⌋ ∧
    ∀ sec2, sec ≤ sec2 →
      get_slot_number (epoch_time sec) ≤ get_slot_number (epoch_time sec2) := by
  constructor
  · unfold get_slot_number epoch_time
    rw [Int.tdiv_eq_ediv (by unfold begin_epoch_time at h ⊢; omega)
        (by unfold INTERVAL; omega)]
    have hcast : ((INTERVAL : ℤ) : ℚ) = ((3 : ℕ) : ℚ) := by
      unfold INTERVAL; norm_num
    rw [hcast, Rat.floor_intCast_div_natCast]
    unfold INTERVAL
    norm_num
  · intro sec2 h2
    unfold get_slot_number epoch_time
    rw [Int.tdiv_eq_ediv (by unfold begin_epoch_time at h ⊢; omega)
          (by unfold INTERVAL; omega),
        Int.tdiv_eq_ediv (by unfold begin_epoch_time at h ⊢; omega)
          (by unfold INTERVAL; omega)]
    exact Int.ediv_le_ediv (by unfold INTERVAL; omega) (by omega)

/-- C6, witness: three seconds after the origin the slot is 1, five seconds
after it is still 1, six seconds after it is 2, and slot numbers are
monotone between the three-second and six-second marks. -/
theorem C6_witness :
    get_slot_number (epoch_time 1500000003) = 1 ∧
    get_slot_number (epoch_time 1500000005) = 1 ∧
    get_slot_number (epoch_time 1500000006) = 2 ∧
    get_slot_number (epoch_time 1500000003) ≤ get_slot_number (epoch_time 1500000006) :=
  ⟨by decide, by decide, by decide,
   (C6_slot_number 1500000003 (by decide)).2 1500000006 (by decide)⟩

/-! ## The f64 computation in calc_round (dpos/src/slot.rs)

`calc_round` computes `((height as f64) / (DELEGATES as f64)).ceil() as i64`.
The IEEE-754 binary64 arithmetic is modelled exactly over the integers:
conversions and divisions are rounded to nearest with ties to even at 53
bits of precision, `ceil` is exact (the ceiling of a finite double is
always representable), and the `as i64` cast saturates. Subnormals and
overflow are irrelevant at the magnitudes reachable from i64 inputs. -/

/-- Fuel-driven binary logarithm: for 1 ≤ n ≤ fuel, `log2F fuel n` is
⌊log₂ n⌋. Written with explicit fuel so that it is structurally recursive
and kernel-computable. -/
def log2F : ℕ → ℕ → ℕ
  | 0, _ => 0
  | fuel + 1, n => if n < 2 then 0 else log2F fuel (n / 2) + 1

/-- Binary logarithm ⌊log₂ n⌋ of a positive natural number. -/
def natLog2 (n : ℕ) : ℕ := log2F n n

/-- Round-to-nearest with ties to even of the fraction num/den. -/
def roundHE (num den : ℕ) : ℕ :=
  if 2 * (num % den) < den then num / den
  else if den < 2 * (num % den) then num / den + 1
  else if (num / den) % 2 = 0 then num / den else num / den + 1

/-- Value of the IEEE binary64 double nearest to n (round to nearest, ties
to even): exact below 2^53, otherwise n rounded to a multiple of its unit
in the last place 2^(e-52), where e = ⌊log₂ n⌋. -/
def f64FromNat (n : ℕ) : ℕ :=
  if n < 2 ^ 53 then n
  else roundHE n (2 ^ (natLog2 n - 52)) * 2 ^ (natLog2 n - 52)

/-- Value of `x as f64` for an i64 `x`; the conversion of an integer is
always integer-valued. -/
def f64FromInt (n : ℤ) : ℤ :=
  if 0 ≤ n then (f64FromNat n.toNat : ℤ) else -(f64FromNat (-n).toNat : ℤ)

/-- Binade selection step: `ratBinadeAux a b d` is d when 2^d ≤ a/b and
d - 1 otherwise (the comparison is written integrally for either sign
of d). -/
def ratBinadeAux (a b : ℕ) (d : ℤ) : ℤ :=
  if 0 ≤ d ∧ b * 2 ^ d.toNat ≤ a ∨ d < 0 ∧ b ≤ a * 2 ^ (-d).toNat then d
  else d - 1

/-- The binade of the positive rational a/b: the unique e with
2^e ≤ a/b < 2^(e+1), found from ⌊log₂ a⌋ - ⌊log₂ b⌋ (which is e or e+1). -/
def ratBinade (a b : ℕ) : ℤ :=
  ratBinadeAux a b ((natLog2 a : ℤ) - (natLog2 b : ℤ))

/-- IEEE binary64 division for nonnegative integer-valued operands — the
only shape reaching the division in `calc_round`, whose operands are f64
conversions of i64 values. The result is the dyadic pair (m, k) of value
m·2^k: m is the correctly rounded (nearest, ties to even) value of
(a/b)·2^(52-e) for the binade e of a/b. -/
def f64DivNat (a b : ℕ) : ℕ × ℤ :=
  if a = 0 ∨ b = 0 then (0, 0)
  else if ratBinade a b ≤ 52 then
    (roundHE (a * 2 ^ (52 - ratBinade a b).toNat) b, ratBinade a b - 52)
  else
    (roundHE a (b * 2 ^ (ratBinade a b - 52).toNat), ratBinade a b - 52)

/-- Signed wrapper around `f64DivNat`; the arguments are the operands'
exact values. -/
def f64DivVal (a b : ℤ) : ℤ × ℤ :=
  if 0 ≤ a ↔ 0 ≤ b then
    (((f64DivNat a.natAbs b.natAbs).1 : ℤ), (f64DivNat a.natAbs b.natAbs).2)
  else
    (-((f64DivNat a.natAbs b.natAbs).1 : ℤ), (f64DivNat a.natAbs b.natAbs).2)

/-- f64 `ceil` of a dyadic value m·2^k, returned as its (integer) value:
the ceiling of a finite double is always exactly representable. -/
def f64CeilDyad : ℤ × ℤ → ℤ
  | (m, k) =>
    if 0 ≤ k then m * 2 ^ k.toNat
    else (m + 2 ^ (-k).toNat - 1) / 2 ^ (-k).toNat

/-- Saturating Rust `as i64` cast of an integer-valued f64. -/
def f64AsI64 (x : ℤ) : ℤ := max (-(2 ^ 63)) (min (2 ^ 63 - 1) x)

/-- dpos/src/slot.rs `calc_round`:
`((height as f64) / (DELEGATES as f64)).ceil() as i64`. -/
def calc_round (height : ℤ) : ℤ :=
  f64AsI64 (f64CeilDyad (f64DivVal (f64FromInt height) (f64FromInt DELEGATES)))

/-- The spec-side rounding, following the spec's words:
`round(height) = ceil(height / DELEGATES)` over the exact rationals. -/
def specCalcRound (height : ℤ) : ℤ := ⌈(height : ℚ) / ((DELEGATES : ℤ) : ℚ)⌉

/-! ### Facts about the model -/

lemma log2F_spec : ∀ fuel n : ℕ, 1 ≤ n → n ≤ fuel →
    2 ^ log2F fuel n ≤ n ∧ n < 2 ^ (log2F fuel n + 1) := by
  intro fuel
  induction fuel with
  | zero => intro n h1 h2; omega
  | succ fuel ih =>
    intro n h1 h2
    by_cases hn : n < 2
    · have hn1 : n = 1 := by omega
      subst hn1
      simp [log2F]
    · have h1' : 1 ≤ n / 2 := by omega
      have h2' : n / 2 ≤ fuel := by omega
      obtain ⟨ha, hb⟩ := ih (n / 2) h1' h2'
      have hL : log2F (fuel + 1) n = log2F fuel (n / 2) + 1 := by
        simp [log2F, hn]
      rw [hL]
      have e1 : 2 ^ (log2F fuel (n / 2) + 1) = 2 ^ log2F fuel (n / 2) * 2 :=
        pow_succ 2 _
      have e2 : 2 ^ (log2F fuel (n / 2) + 1 + 1)
          = 2 ^ (log2F fuel (n / 2) + 1) * 2 := pow_succ 2 _
      constructor
      · omega
      · omega

lemma natLog2_spec (n : ℕ) (h : 1 ≤ n) :
    2 ^ natLog2 n ≤ n ∧ n < 2 ^ (natLog2 n + 1) :=
  log2F_spec n n h le_rfl

lemma roundHE_err (num den : ℕ) (hden : 0 < den) :
    2 * (num : ℤ) - den ≤ 2 * den * (roundHE num den : ℤ) ∧
    2 * (den : ℤ) * (roundHE num den : ℤ) ≤ 2 * num + den := by
  have hmod : num % den < den := Nat.mod_lt _ hden
  have hdmZ : (den : ℤ) * ((num / den : ℕ) : ℤ) + ((num % den : ℕ) : ℤ)
      = (num : ℤ) := by exact_mod_cast Nat.div_add_mod num den
  have hmodZ : ((num % den : ℕ) : ℤ) < (den : ℤ) := by exact_mod_cast hmod
  have hr0 : (0 : ℤ) ≤ ((num % den : ℕ) : ℤ) := Int.natCast_nonneg _
  unfold roundHE
  split_ifs with h1 h2 h3
  · have h1Z : 2 * ((num % den : ℕ) : ℤ) < (den : ℤ) := by exact_mod_cast h1
    exact ⟨by linarith, by linarith⟩
  · have h2Z : (den : ℤ) < 2 * ((num % den : ℕ) : ℤ) := by exact_mod_cast h2
    constructor <;> (rw [Nat.cast_add, Nat.cast_one]; linarith)
  · have htie : 2 * ((num % den : ℕ) : ℤ) = (den : ℤ) := by
      have : 2 * (num % den) = den := by omega
      exact_mod_cast this
    exact ⟨by linarith, by linarith⟩
  · have htie : 2 * ((num % den : ℕ) : ℤ) = (den : ℤ) := by
      have : 2 * (num % den) = den := by omega
      exact_mod_cast this
    constructor <;> (rw [Nat.cast_add, Nat.cast_one]; linarith)

lemma roundHE_exact (num den : ℕ) (hden : 0 < den) (hdvd : den ∣ num) :
    roundHE num den = num / den := by
  have h0 : num % den = 0 := by
    obtain ⟨c, rfl⟩ := hdvd
    exact Nat.mul_mod_right den c
  unfold roundHE
  rw [h0]
  simp [hden]

lemma f64FromNat_eq (n : ℕ) (hn : n ≤ 2 ^ 53) : f64FromNat n = n := by
  unfold f64FromNat
  split_ifs with hlt
  · rfl
  · have h53 : n = 2 ^ 53 := le_antisymm hn (not_lt.mp hlt)
    subst h53
    decide

lemma f64FromInt_natCast (n : ℕ) (hn : n ≤ 2 ^ 53) :
    f64FromInt (n : ℤ) = (n : ℤ) := by
  unfold f64FromInt
  rw [if_pos (Int.natCast_nonneg n), Int.toNat_natCast, f64FromNat_eq n hn]

lemma f64DivVal_natCast (a : ℕ) :
    f64DivVal (a : ℤ) 11 = (((f64DivNat a 11).1 : ℤ), (f64DivNat a 11).2) := by
  unfold f64DivVal
  rw [if_pos (iff_of_true (Int.natCast_nonneg a) (by norm_num))]
  simp [Int.natAbs_ofNat]

lemma f64CeilDyad_neg (m k : ℤ) (hk : ¬ 0 ≤ k) :
    f64CeilDyad (m, k) = (m + 2 ^ (-k).toNat - 1) / 2 ^ (-k).toNat := by
  simp only [f64CeilDyad]
  rw [if_neg hk]

lemma ratBinade_le_of_lt (a b B : ℕ) (ha : 1 ≤ a) (hb : 1 ≤ b)
    (hB : a < b * 2 ^ B) :
    ratBinade a b ≤ (B : ℤ) - 1 := by
  obtain ⟨hla, _⟩ := natLog2_spec a ha
  obtain ⟨_, hlb2⟩ := natLog2_spec b hb
  unfold ratBinade ratBinadeAux
  split_ifs with htest
  · rcases htest with ⟨hd0, hle⟩ | ⟨hdneg, _⟩
    · have hpow : 2 ^ (((natLog2 a : ℤ) - (natLog2 b : ℤ)).toNat) < 2 ^ B := by
        by_contra hc
        push_neg at hc
        exact absurd hB (not_lt.mpr (le_trans (Nat.mul_le_mul_left b hc) hle))
      have hlt := (Nat.pow_lt_pow_iff_right (by norm_num : 1 < 2)).mp hpow
      omega
    · omega
  · have h3 : (2 : ℕ) ^ natLog2 a < 2 ^ (natLog2 b + 1 + B) := by
      calc (2 : ℕ) ^ natLog2 a ≤ a := hla
        _ < b * 2 ^ B := hB
        _ ≤ 2 ^ (natLog2 b + 1) * 2 ^ B :=
            Nat.mul_le_mul_right _ (le_of_lt hlb2)
        _ = 2 ^ (natLog2 b + 1 + B) := by rw [← pow_add]
    have hlt := (Nat.pow_lt_pow_iff_right (by norm_num : 1 < 2)).mp h3
    omega

lemma ceil_ediv_eq (D m d : ℤ) (hD : 0 < D) (hlo : D * d < m)
    (hhi : m ≤ D * (d + 1)) :
    (m + D - 1) / D = d + 1 := by
  have hlo' : D * d + 1 ≤ m := Int.lt_iff_add_one_le.mp hlo
  have hhi' : m ≤ D * d + D := by linarith [hhi, (by ring : D * (d + 1) = D * d + D)]
  have h1 : m + D - 1 = (m - 1 - D * d) + (d + 1) * D := by ring
  rw [h1, Int.add_mul_ediv_right _ _ (ne_of_gt hD),
      Int.ediv_eq_zero_of_lt (by linarith) (by linarith), zero_add]

lemma div11_ceil (n : ℕ) (hn1 : 1 ≤ n) (hn : n ≤ 2 ^ 53) :
    f64CeilDyad (((f64DivNat n 11).1 : ℤ), (f64DivNat n 11).2)
      = ((n : ℤ) + 10) / 11 := by
  have hp53 : (2 : ℕ) ^ 53 = 9007199254740992 := by norm_num
  have hp50 : (2 : ℕ) ^ 50 = 1125899906842624 := by norm_num
  have hB : n < 11 * 2 ^ 50 := by omega
  have he : ratBinade n 11 ≤ 49 := by
    have h := ratBinade_le_of_lt n 11 50 hn1 (by norm_num) hB
    omega
  have hne : ¬ (n = 0 ∨ 11 = 0) := by omega
  have hdiv : f64DivNat n 11
      = (roundHE (n * 2 ^ (52 - ratBinade n 11).toNat) 11, ratBinade n 11 - 52) := by
    unfold f64DivNat
    rw [if_neg hne, if_pos (by omega : ratBinade n 11 ≤ 52)]
  rw [hdiv]
  dsimp only
  set e := ratBinade n 11 with hedef
  set κ := (52 - e).toNat with hkdef
  have hk3 : 3 ≤ κ := by omega
  have hD8 : (8 : ℤ) ≤ 2 ^ κ := by
    calc (8 : ℤ) = 2 ^ 3 := by norm_num
      _ ≤ 2 ^ κ := pow_le_pow_right (by norm_num) hk3
  have hD0 : (0 : ℤ) < 2 ^ κ := by positivity
  set m := roundHE (n * 2 ^ κ) 11 with hmdef
  have hneg : ¬ (0 ≤ e - 52) := by omega
  have hkk : (-(e - 52)).toNat = κ := by omega
  have hceil : f64CeilDyad ((m : ℤ), e - 52)
      = ((m : ℤ) + 2 ^ κ - 1) / 2 ^ κ := by
    rw [f64CeilDyad_neg _ _ hneg, hkk]
  obtain ⟨herr1, herr2⟩ := roundHE_err (n * 2 ^ κ) 11 (by norm_num)
  rw [← hmdef] at herr1 herr2
  have herr1' : 2 * ((n : ℤ) * 2 ^ κ) - 11 ≤ 2 * 11 * (m : ℤ) := by
    have hc : ((n * 2 ^ κ : ℕ) : ℤ) = (n : ℤ) * 2 ^ κ := by push_cast; ring
    rw [hc] at herr1
    convert herr1 using 2 <;> norm_num
  have herr2' : 2 * 11 * (m : ℤ) ≤ 2 * ((n : ℤ) * 2 ^ κ) + 11 := by
    have hc : ((n * 2 ^ κ : ℕ) : ℤ) = (n : ℤ) * 2 ^ κ := by push_cast; ring
    rw [hc] at herr2
    convert herr2 using 2 <;> norm_num
  set d : ℤ := (n : ℤ) / 11 with hddef
  set s : ℤ := (n : ℤ) % 11 with hsdef
  have hnds : (n : ℤ) = 11 * d + s := by omega
  have hs0 : 0 ≤ s := by omega
  have hs11 : s < 11 := by omega
  by_cases hsz : s = 0
  · -- 11 divides n: the division is exact and the ceiling is n / 11
    have hmodN : n % 11 = 0 := by omega
    have hdvd11 : 11 ∣ n := Nat.dvd_of_mod_eq_zero hmodN
    have hdvd : 11 ∣ n * 2 ^ κ := Dvd.dvd.mul_right hdvd11 _
    have hm : m = n / 11 * 2 ^ κ := by
      rw [hmdef, roundHE_exact _ _ (by norm_num) hdvd]
      rw [Nat.mul_comm n (2 ^ κ), Nat.mul_div_assoc (2 ^ κ) hdvd11,
          Nat.mul_comm (2 ^ κ) (n / 11)]
    have hq : ((n / 11 : ℕ) : ℤ) = d := by omega
    have hmZ : (m : ℤ) = d * 2 ^ κ := by
      have hc : ((n / 11 * 2 ^ κ : ℕ) : ℤ) = ((n / 11 : ℕ) : ℤ) * 2 ^ κ := by
        push_cast; ring
      rw [hm, hc, hq]
    have hstep : (d * (2 : ℤ) ^ κ + 2 ^ κ - 1) / 2 ^ κ = d := by
      have h1 : d * (2 : ℤ) ^ κ + 2 ^ κ - 1 = (2 ^ κ - 1) + d * 2 ^ κ := by ring
      rw [h1, Int.add_mul_ediv_right _ _ (ne_of_gt hD0),
          Int.ediv_eq_zero_of_lt (by linarith) (by linarith), zero_add]
    rw [hceil, hmZ, hstep]
    omega
  · -- 11 does not divide n: the rounded quotient stays strictly between
    -- the neighbouring integers, so the ceiling is ⌊n / 11⌋ + 1
    have hs1 : 1 ≤ s := by omega
    have hNP : (n : ℤ) * 2 ^ κ = 11 * (d * 2 ^ κ) + s * 2 ^ κ := by
      rw [hnds]; ring
    have hsPlo : (2 : ℤ) ^ κ ≤ s * 2 ^ κ :=
      le_mul_of_one_le_left (le_of_lt hD0) hs1
    have hsPhi : s * (2 : ℤ) ^ κ ≤ 10 * 2 ^ κ :=
      mul_le_mul_of_nonneg_right (by omega) (le_of_lt hD0)
    have key1 : 5 ≤ 22 * ((m : ℤ) - d * 2 ^ κ) := by
      linarith [herr1', hNP, hsPlo, hD8]
    have key2 : 5 ≤ 22 * (d * 2 ^ κ + 2 ^ κ - (m : ℤ)) := by
      linarith [herr2', hNP, hsPhi, hD8]
    have hexp : (2 : ℤ) ^ κ * (d + 1) = d * 2 ^ κ + 2 ^ κ := by ring
    have hfin := ceil_ediv_eq ((2 : ℤ) ^ κ) (m : ℤ) d hD0
      (by linarith) (by linarith)
    rw [hceil, hfin]
    omega

lemma specCalcRound_eq (h : ℤ) : specCalcRound h = (h + 10) / 11 := by
  unfold specCalcRound DELEGATES
  rw [Int.ceil_eq_iff]
  have hz1 : 11 * ((h + 10) / 11) - 11 < h := by omega
  have hz2 : h ≤ 11 * ((h + 10) / 11) := by omega
  constructor
  · rw [lt_div_iff (by norm_num : (0 : ℚ) < ((11 : ℤ) : ℚ))]
    have hc : ((11 * ((h + 10) / 11) - 11 : ℤ) : ℚ) < ((h : ℤ) : ℚ) := by
      exact_mod_cast hz1
    push_cast at hc ⊢
    linarith
  · rw [div_le_iff (by norm_num : (0 : ℚ) < ((11 : ℤ) : ℚ))]
    have hc : ((h : ℤ) : ℚ) ≤ ((11 * ((h + 10) / 11) : ℤ) : ℚ) := by
      exact_mod_cast hz2
    push_cast at hc ⊢
    linarith

/-! ## C5: calc_round versus the exact ceiling -/

/-- C5, counterexample: the claim says `calc_round h = ⌈h / 11⌉` for every
height h ≥ 0. At h = 11·2^51 + 1 = 24769797950537729 the `h as f64`
conversion rounds h down to 11·2^51 (the unit in the last place is 4 at
that magnitude), the f64 division is then exact, and `calc_round` returns
2^51 = 2251799813685248 while the exact ceiling is 2^51 + 1. -/
theorem C5_counterexample :
    calc_round 24769797950537729 = 2251799813685248 ∧
    specCalcRound 24769797950537729 = 2251799813685249 ∧
    calc_round 24769797950537729 ≠ specCalcRound 24769797950537729 := by
  have h1 : calc_round 24769797950537729 = 2251799813685248 := by decide
  have h2 : specCalcRound 24769797950537729 = 2251799813685249 := by
    unfold specCalcRound DELEGATES
    rw [Int.ceil_eq_iff]
    constructor
    · push_cast
      norm_num
    · push_cast
      norm_num
  refine ⟨h1, h2, ?_⟩
  rw [h1, h2]
  decide

/-- C5, amended: for every height 0 ≤ h ≤ 2^53, `calc_round h` equals the
exact ceiling ⌈h / DELEGATES⌉ (in particular `calc_round` is 1 at heights
1, 10 and 11, and 2 at height 12); above 2^53 the f64 rounding of the
height can change the result. -/
theorem C5_amended (h : ℤ) (hpos : 0 ≤ h) (hle : h ≤ 2 ^ 53) :
    calc_round h = specCalcRound h := by
  rw [specCalcRound_eq]
  by_cases h0 : h = 0
  · subst h0; decide
  · have hq : (2 : ℕ) ^ 53 = 9007199254740992 := by norm_num
    have hp : (2 : ℤ) ^ 53 = 9007199254740992 := by norm_num
    have hn1 : 1 ≤ h.toNat := by omega
    have hn53 : h.toNat ≤ 2 ^ 53 := by omega
    have hcast : ((h.toNat : ℕ) : ℤ) = h := Int.toNat_of_nonneg hpos
    unfold calc_round
    rw [show f64FromInt DELEGATES = 11 from by decide]
    rw [← hcast, f64FromInt_natCast h.toNat hn53, f64DivVal_natCast]
    rw [div11_ceil h.toNat hn1 hn53]
    unfold f64AsI64
    have hp63 : (2 : ℤ) ^ 63 = 9223372036854775808 := by norm_num
    have hb1 : 0 ≤ ((h.toNat : ℤ) + 10) / 11 := by omega
    have hb2 : ((h.toNat : ℤ) + 10) / 11 ≤ 2 ^ 63 - 1 := by omega
    have hb3 : -((2 : ℤ) ^ 63) ≤ ((h.toNat : ℤ) + 10) / 11 := by omega
    rw [min_eq_right hb2, max_eq_right hb3]

/-- C5, witness: the amended theorem applied at height 12, together with
the literal scenario values of the spec. -/
theorem C5_witness :
    calc_round 12 = specCalcRound 12 ∧
    calc_round 1 = 1 ∧ calc_round 10 = 1 ∧ calc_round 11 = 1 ∧
    calc_round 12 = 2 :=
  ⟨C5_amended 12 (by decide) (by decide),
   by decide, by decide, by decide, by decide⟩
